import Mathlib

/-!
Verification of the multipart/form-data decoder and media-ingestion path of
the `nexusnetwork` repository (`MediaService`, `src/services/MediaService.ts`).

Modelling conventions:
* A Node.js `Buffer` is modelled as `List Nat` (one `Nat` per byte; the source
  only ever stores bytes 0–255).
* A JavaScript string is modelled as `List Char`.
* `Buffer.toString()` / `Buffer.from(string)` perform UTF-8 decoding/encoding;
  they are modelled as `Char.ofNat` / `Char.toNat` maps, which agree with
  UTF-8 on the ASCII range used by every token the decoder matches on.
* The decoder (`parseMultipartFile`, `splitBuffer`) performs no I/O in the
  source; it is modelled as a pure function.  `uploadFile` and
  `uploadAndCreateMedia` perform a storage write (`writeFileSync`) and a
  database insert; they are modelled as functions returning the result
  together with the list of byte blobs written to storage.  The generated
  storage key (`Date.now()` + random suffix), the URL and the image-dimension
  probe (which always yields `null` in the source) are not part of any claim
  and are abstracted away from the returned record.
-/

set_option maxRecDepth 100000

namespace MediaService

/-- Shorthand: the character list of a string literal. -/
def strL (s : String) : List Char := s.data

/-- Models `Buffer.toString('utf8')` restricted to ASCII bytes: each byte
becomes the character with that code point. -/
def decodeBytes (bs : List Nat) : List Char := bs.map Char.ofNat

/-- Models `Buffer.from(string)` restricted to ASCII strings: each character
becomes its code point. -/
def encodeChars (cs : List Char) : List Nat := cs.map Char.toNat

/-- Models `String.prototype.includes(needle)`: does `needle` occur as a
contiguous substring? -/
def containsSub {α : Type} [BEq α] (needle : List α) : List α → Bool
  | [] => needle.isEmpty
  | c :: rest => needle.isPrefixOf (c :: rest) || containsSub needle rest

/-- Models `Buffer.prototype.indexOf(delim)` scanning the suffix list `l`
whose first element sits at absolute index `i`: returns the absolute index of
the first occurrence of `delim`, or `none`. -/
def bidxAux {α : Type} [BEq α] (delim : List α) : List α → Nat → Option Nat
  | [], i => if delim.isPrefixOf [] then some i else none
  | c :: rest, i =>
    if delim.isPrefixOf (c :: rest) then some i else bidxAux delim rest (i + 1)

/-- Models `buffer.indexOf(delimiter, start)` (source line 185): first
occurrence of `delim` in `buf` at index ≥ `start`. -/
def bufIndexOf (buf delim : List Nat) (start : Nat) : Option Nat :=
  bidxAux delim (buf.drop start) start

/-- `MediaService.splitBuffer` (source lines 179–202), fuel-indexed.  The
source loop keeps an absolute `start` offset; each iteration finds the next
delimiter occurrence, pushes the non-empty slice strictly between `start` and
the occurrence, and advances past the delimiter; when no occurrence remains it
pushes the non-empty tail.  For a non-empty delimiter the loop runs at most
`buffer.length + 1` times, which is the fuel `splitBuffer` supplies; an empty
delimiter makes the source loop non-terminating, and exhausted fuel returns
`[]`. -/
def splitBufferF : Nat → List Nat → List Nat → Nat → List (List Nat)
  | 0, _, _, _ => []
  | fuel + 1, buf, delim, start =>
    match bufIndexOf buf delim start with
    | none => if start < buf.length then [buf.drop start] else []
    | some i =>
      (if start < i then [(buf.take i).drop start] else []) ++
        splitBufferF fuel buf delim (i + delim.length)

/-- `MediaService.splitBuffer` (source lines 179–202). -/
def splitBuffer (buf delim : List Nat) : List (List Nat) :=
  splitBufferF (buf.length + 1) buf delim 0

/-- The greedy segmentation described by spec §4.2: repeatedly cut at the
first remaining delimiter occurrence, keeping every segment (empty ones
included) and the final remainder.  Stated from the spec's words for the
refinement claim C5; `splitBuffer` equals this segmentation with the empty
segments dropped. -/
def splitSpecF : Nat → List Nat → List Nat → List (List Nat)
  | 0, buf, _ => [buf]
  | fuel + 1, buf, delim =>
    match bidxAux delim buf 0 with
    | none => [buf]
    | some i => buf.take i :: splitSpecF fuel (buf.drop (i + delim.length)) delim

/-- Greedy delimiter segmentation (spec §4.2), with enough fuel. -/
def splitSpecGreedy (buf delim : List Nat) : List (List Nat) :=
  splitSpecF (buf.length + 1) buf delim

/-- Interleave the delimiter back between segments (used to state that the
segments of `splitSpecGreedy` are exactly what stands between consecutive
delimiter occurrences). -/
def joinWith (d : List Nat) : List (List Nat) → List Nat
  | [] => []
  | [x] => x
  | x :: y :: ys => x ++ d ++ joinWith d (y :: ys)

/-- Line terminators that JavaScript's `.` (no `s` flag) does not match. -/
def isLineTerm (c : Char) : Bool :=
  c = '\n' || c = '\r' || c.toNat = 0x2028 || c.toNat = 0x2029

/-- The literal `boundary=` scanned by the regex `/boundary=(.+)$/`. -/
def boundaryTok : List Char := strL "boundary="

/-- Models `contentType.match(/boundary=(.+)$/)` (source line 132): scan for
the first occurrence of `boundary=` whose entire remaining suffix is
non-empty and free of line terminators (`.` never matches a line terminator
and `$` only matches at the end of the string, so `(.+)$` matches exactly
such suffixes); the capture is that whole suffix, verbatim. -/
def extractBoundary : List Char → Option (List Char)
  | [] => none
  | c :: rest =>
    if boundaryTok.isPrefixOf (c :: rest) then
      if ((c :: rest).drop boundaryTok.length).isEmpty ||
          ((c :: rest).drop boundaryTok.length).any isLineTerm then
        extractBoundary rest
      else some ((c :: rest).drop boundaryTok.length)
    else extractBoundary rest

/-- The property "the header admits a usable boundary capture": some
occurrence of `boundary=` is followed by a non-empty, line-terminator-free
suffix.  This is the amended characterisation of when the Boundary Extractor
succeeds (claim C4). -/
def hasUsableBoundary (ct : List Char) : Prop :=
  ∃ pre suf, ct = pre ++ boundaryTok ++ suf ∧ suf ≠ [] ∧ suf.all (fun c => !isLineTerm c) = true

/-- The literal `filename="` of the regex `/filename="([^"]+)"/`. -/
def filenameTok : List Char := strL "filename=\x22"

/-- Models `headerSection.match(/filename="([^"]+)"/)` (source line 161):
leftmost occurrence of `filename="` followed by at least one non-quote
character and then a closing quote; the capture is the maximal run of
non-quote characters.  If the characters after `filename="` up to the end
contain no closing quote, or the value is empty, the engine moves on to the
next position. -/
def fnScan : List Char → Option (List Char)
  | [] => none
  | c :: rest =>
    if filenameTok.isPrefixOf (c :: rest) then
      let after := (c :: rest).drop filenameTok.length
      let v := after.takeWhile (fun x => x ≠ '\x22')
      if v.isEmpty || v.length = after.length then fnScan rest else some v
    else fnScan rest

/-- JavaScript `\s` restricted to the ASCII range (the only characters the
decoder's tokens produce): space, tab, line feed, carriage return, vertical
tab, form feed. -/
def isJsSpace (c : Char) : Bool :=
  c = ' ' || c = '\t' || c = '\n' || c = '\r' || c = '\x0b' || c = '\x0c'

/-- Carriage return or line feed (the characters `[^\r\n]` excludes). -/
def isCRorLF (c : Char) : Bool := c = '\r' || c = '\n'

/-- `String.prototype.trim()` over the ASCII range. -/
def jsTrim (s : List Char) : List Char :=
  ((s.dropWhile isJsSpace).reverse.dropWhile isJsSpace).reverse

/-- The capture of `\s*([^\r\n]+)` with a greedy, backtracking `\s*`: let `w`
be the maximal whitespace run; if anything follows it, the capture is the
maximal CR/LF-free run from there (its head is a non-space, hence not CR/LF).
Otherwise `\s*` backtracks to the last non-CR/LF character of `w` (every
later character of `w` is CR or LF, so the capture is that single character);
if `w` is all CR/LF the pattern fails at this position. -/
def ctCapture (after : List Char) : Option (List Char) :=
  let w := after.takeWhile isJsSpace
  let rest := after.drop w.length
  if !rest.isEmpty then some (rest.takeWhile (fun c => !isCRorLF c))
  else
    match w.reverse.dropWhile isCRorLF with
    | [] => none
    | c :: _ => some [c]

/-- The literal `Content-Type:` of the regex `/Content-Type:\s*([^\r\n]+)/`. -/
def mimeTok : List Char := strL "Content-Type:"

/-- Models `headerSection.match(/Content-Type:\s*([^\r\n]+)/)` (source line
165): leftmost position where the literal matches and `\s*([^\r\n]+)` can
match the remainder; returns the raw capture (the source applies `.trim()`
to it at the use site). -/
def ctScan : List Char → Option (List Char)
  | [] => none
  | c :: rest =>
    if mimeTok.isPrefixOf (c :: rest) then
      match ctCapture ((c :: rest).drop mimeTok.length) with
      | some cap => some cap
      | none => ctScan rest
    else ctScan rest

/-- The value `parseMultipartFile` resolves for one part: original filename,
resolved MIME type and raw content bytes (source lines 120–124). -/
structure FileData where
  filename : List Char
  mimeType : List Char
  content : List Nat
deriving DecidableEq, Repr

/-- The byte sequence `\r\n\r\n` separating part headers from the part body. -/
def crlfcrlf : List Nat := [13, 10, 13, 10]

/-- The literal `Content-Disposition: form-data` (source line 159). -/
def cdTok : List Char := strL "Content-Disposition: form-data"

/-- The literal `filename=` (source line 159). -/
def fnTok : List Char := strL "filename="

/-- The literal `multipart/form-data` (source line 127). -/
def mfdTok : List Char := strL "multipart/form-data"

/-- One iteration of the part loop of `parseMultipartFile` (source lines
148–173): skip empty parts, locate the first `\r\n\r\n`, split the part into
header text (decoded) and content bytes, and if the header text contains both
`Content-Disposition: form-data` and `filename=` return the extracted
filename (default `unknown`), MIME type (trimmed capture, default
`application/octet-stream`) and the content bytes. -/
def tryPart (part : List Nat) : Option FileData :=
  if part.length = 0 then none
  else
    match bidxAux crlfcrlf part 0 with
    | none => none
    | some k =>
      if containsSub cdTok (decodeBytes (part.take k)) &&
          containsSub fnTok (decodeBytes (part.take k)) then
        some
          { filename := match fnScan (decodeBytes (part.take k)) with
              | some v => v
              | none => strL "unknown"
            mimeType := match ctScan (decodeBytes (part.take k)) with
              | some cap => jsTrim cap
              | none => strL "application/octet-stream"
            content := part.drop (k + 4) }
      else none

/-- The `for (const part of parts)` loop of `parseMultipartFile`: the first
part the loop body accepts wins. -/
def selectFile (parts : List (List Nat)) : Option FileData :=
  parts.findSome? tryPart

/-- Failure kinds of `parseMultipartFile`: `invalidContentType` models the
`Content-Type must be multipart/form-data` throw (source line 128) and
`noBoundary` the `No boundary found in multipart data` throw (source line
134).  Spec §7 files both under `InvalidContentType`. -/
inductive ParseErr where
  | invalidContentType
  | noBoundary
deriving DecidableEq, Repr

/-- `MediaService.parseMultipartFile` (source lines 120–177).  `contentType`
is the request's content-type header (absent or empty is falsy in the
source); `rawBody` is `request.body` (possibly absent).  `.ok none` models
the `return null` paths (missing/empty body, or no part accepted). -/
def parseMultipartFile (contentType : Option (List Char)) (rawBody : Option (List Nat)) :
    Except ParseErr (Option FileData) :=
  match contentType with
  | none => .error .invalidContentType
  | some ct =>
    if !containsSub mfdTok ct then .error .invalidContentType
    else
      match extractBoundary ct with
      | none => .error .noBoundary
      | some boundary =>
        match rawBody with
        | none => .ok none
        | some body =>
          if body.length = 0 then .ok none
          else
            .ok (selectFile (splitBuffer body (encodeChars (strL "--" ++ boundary))))

/-- Failure kinds of the upload operations: a decode failure, the
`No file uploaded` throw, or the `File too large` throw (spec names the last
`PayloadTooLarge` and the second `NoFileFound`). -/
inductive UploadErr where
  | parse (e : ParseErr)
  | noFile
  | tooLarge
deriving DecidableEq, Repr

/-- The fields of the persisted media record that the claims mention
(source lines 97–107): resolved MIME type, byte size, and owner id.  The
generated storage key/URL and the always-`null` image dimensions are
abstracted away. -/
structure MediaRecord where
  mimeType : List Char
  sizeBytes : Nat
  ownerUserId : List Char
deriving DecidableEq, Repr

/-- `MediaService.uploadFile` (source lines 68–118).  `allowedMimeTypes`
mirrors the class field of source line 13, which `uploadFile` never reads.
`userSub` models `request.user?.sub`: `none` when the request has no user or
the user has no `sub` claim; the source's `|| 'anonymous'` also replaces an
empty string.  The second component is the list of byte blobs written to
storage (`writeFileSync`, source line 87). -/
def uploadFile (maxFileSize : Nat) (allowedMimeTypes : List (List Char))
    (contentType : Option (List Char)) (rawBody : Option (List Nat))
    (userSub : Option (List Char)) :
    Except UploadErr MediaRecord × List (List Nat) :=
  match parseMultipartFile contentType rawBody with
  | .error e => (.error (.parse e), [])
  | .ok none => (.error .noFile, [])
  | .ok (some fd) =>
    if fd.content.length > maxFileSize then (.error .tooLarge, [])
    else
      (.ok { mimeType := fd.mimeType
             sizeBytes := fd.content.length
             ownerUserId :=
               match userSub with
               | none => strL "anonymous"
               | some s => if s.isEmpty then strL "anonymous" else s },
       [fd.content])

/-- `MediaService.uploadAndCreateMedia` (source lines 22–66): identical to
`uploadFile` except that the owner id is the explicit `userId` argument. -/
def uploadAndCreateMedia (maxFileSize : Nat) (allowedMimeTypes : List (List Char))
    (contentType : Option (List Char)) (rawBody : Option (List Nat))
    (userId : List Char) :
    Except UploadErr MediaRecord × List (List Nat) :=
  match parseMultipartFile contentType rawBody with
  | .error e => (.error (.parse e), [])
  | .ok none => (.error .noFile, [])
  | .ok (some fd) =>
    if fd.content.length > maxFileSize then (.error .tooLarge, [])
    else
      (.ok { mimeType := fd.mimeType
             sizeBytes := fd.content.length
             ownerUserId := userId },
       [fd.content])

/-- The scenario-A content-type header (spec §8): `multipart/form-data` with
boundary `X`. -/
def ctX : List Char := strL "multipart/form-data; boundary=X"

/-- The header block of the scenario-A file part (spec §8), as the splitter
leaves it: the CRLF that ended the opening delimiter line, the
`Content-Disposition` line and the `Content-Type` line. -/
def scenarioHdr : List Char :=
  strL "\r\nContent-Disposition: form-data; name=\x22file\x22; filename=\x22a.png\x22\r\nContent-Type: image/png"

/-- The split delimiter `--X` for boundary `X`. -/
def dX : List Nat := encodeChars (strL "--X")

/-- The standard (RFC 2046) single-file multipart body for boundary `X` used
by claim C1's round-trip: opening delimiter line, scenario-A part headers,
blank line, the part's content bytes, then CRLF and the closing delimiter
`--X--` — i.e. `--X\r\n<headers>\r\n\r\n<content>\r\n--X--\r\n`.  Stated
from the spec's words (spec §8, round-trip property and scenario A). -/
def encodeScenarioA (content : List Nat) : List Nat :=
  dX ++ encodeChars scenarioHdr ++ crlfcrlf ++ content ++ [13, 10] ++ dX ++
    encodeChars (strL "--\r\n")

/-! Supporting lemmas about the byte-scanning primitives. -/

theorem isPrefixOf_iff_exists {α : Type} [BEq α] [LawfulBEq α] {p l : List α} :
    p.isPrefixOf l = true ↔ ∃ t, l = p ++ t := by
  rw [ List.isPrefixOf_iff_prefix]
  constructor
  · rintro ⟨t, ht⟩
    exact ⟨t, ht.symm⟩
  · rintro ⟨t, ht⟩
    exact ⟨t, ht.symm⟩

theorem isPrefixOf_length_le {α : Type} [BEq α] [LawfulBEq α] {p l : List α}
    (h : p.isPrefixOf l = true) : p.length ≤ l.length := by
  obtain ⟨t, rfl⟩ := isPrefixOf_iff_exists.mp h
  simp

theorem isPrefixOf_append_eq {α : Type} [BEq α] [LawfulBEq α] {p x : List α} (t : List α)
    (h : p.length ≤ x.length) : p.isPrefixOf (x ++ t) = p.isPrefixOf x := by
  induction p generalizing x with
  | nil => simp [List.isPrefixOf]
  | cons a p ih =>
    cases x with
    | nil => simp at h
    | cons b x =>
      have h' : p.length ≤ x.length := by simpa using h
      simp only [List.cons_append, List.isPrefixOf, List.append_eq]
      rw [ih h']

theorem isPrefixOf_of_take {α : Type} [BEq α] [LawfulBEq α] {p l : List α} {m : Nat}
    (h : p.isPrefixOf (l.take m) = true) : p.isPrefixOf l = true := by
  have hl := isPrefixOf_length_le h
  have he := isPrefixOf_append_eq (p := p) (x := l.take m) (l.drop m) hl
  rw [List.take_append_drop] at he
  rw [he]
  exact h

theorem containsSub_iff {α : Type} [BEq α] [LawfulBEq α] {n h : List α} :
    containsSub n h = true ↔ ∃ j, n.isPrefixOf (h.drop j) = true := by
  induction h with
  | nil =>
    cases n <;> simp [containsSub, List.isPrefixOf]
  | cons c rest ih =>
    simp only [containsSub, Bool.or_eq_true, ih]
    constructor
    · rintro (hp | ⟨j, hj⟩)
      · exact ⟨0, hp⟩
      · exact ⟨j + 1, hj⟩
    · rintro ⟨j, hj⟩
      cases j with
      | zero => exact Or.inl hj
      | succ j => exact Or.inr ⟨j, hj⟩

theorem bidxAux_nil {α : Type} [BEq α] {d : List α} {i : Nat} :
    bidxAux d ([] : List α) i = if d.isEmpty then some i else none := by
  simp only [bidxAux]
  cases d with
  | nil => simp [List.isPrefixOf]
  | cons a as => simp [List.isPrefixOf]

theorem bidxAux_cons_pos {α : Type} [BEq α] {d : List α} {c : α} {rest : List α} {i : Nat}
    (hp : d.isPrefixOf (c :: rest) = true) : bidxAux d (c :: rest) i = some i := by
  simp only [bidxAux]
  rw [hp]
  simp

theorem bidxAux_cons_neg {α : Type} [BEq α] {d : List α} {c : α} {rest : List α} {i : Nat}
    (hp : d.isPrefixOf (c :: rest) = false) :
    bidxAux d (c :: rest) i = bidxAux d rest (i + 1) := by
  simp only [bidxAux]
  rw [hp]
  simp

theorem bidxAux_pos_zero {α : Type} [BEq α] {d l : List α}
    (hp : d.isPrefixOf l = true) : bidxAux d l 0 = some 0 := by
  cases l with
  | nil =>
    rw [bidxAux_nil]
    cases d with
    | nil => rfl
    | cons a as => simp [List.isPrefixOf] at hp
  | cons c rest => exact bidxAux_cons_pos hp

theorem bidxAux_shift {α : Type} [BEq α] {d l : List α} (i : Nat) :
    bidxAux d l i = (bidxAux d l 0).map (· + i) := by
  induction l generalizing i with
  | nil =>
    rw [bidxAux_nil, bidxAux_nil]
    cases d.isEmpty <;> simp
  | cons c rest ih =>
    cases hp : d.isPrefixOf (c :: rest) with
    | true =>
      rw [bidxAux_cons_pos hp, bidxAux_cons_pos hp]
      simp
    | false =>
      rw [bidxAux_cons_neg hp, bidxAux_cons_neg hp, ih (i + 1), ih 1]
      cases bidxAux d rest 0 with
      | none => rfl
      | some m =>
        simp only [Option.map_some']
        congr 1
        omega

theorem bidxAux_some_spec {α : Type} [BEq α] {d l : List α} {k : Nat}
    (h : bidxAux d l 0 = some k) :
    d.isPrefixOf (l.drop k) = true ∧ k ≤ l.length ∧
      ∀ j, j < k → d.isPrefixOf (l.drop j) = false := by
  induction l generalizing k with
  | nil =>
    rw [bidxAux_nil] at h
    cases d with
    | nil =>
      simp at h
      subst h
      exact ⟨by simp [List.isPrefixOf], Nat.le_refl _, fun j hj => absurd hj (Nat.not_lt_zero j)⟩
    | cons a as =>
      simp at h
  | cons c rest ih =>
    cases hp : d.isPrefixOf (c :: rest) with
    | true =>
      rw [bidxAux_cons_pos hp] at h
      injection h with h
      subst h
      exact ⟨hp, Nat.zero_le _, fun j hj => absurd hj (Nat.not_lt_zero j)⟩
    | false =>
      rw [bidxAux_cons_neg hp, bidxAux_shift 1] at h
      cases hr : bidxAux d rest 0 with
      | none =>
        rw [hr] at h
        cases h
      | some m =>
        rw [hr] at h
        simp only [Option.map_some'] at h
        injection h with h
        obtain ⟨hpre, hle, hmin⟩ := ih hr
        subst h
        refine ⟨by simpa using hpre, by simpa using Nat.succ_le_succ hle, ?_⟩
        intro j hj
        cases j with
        | zero => simpa using hp
        | succ j =>
          have hj' : j < m := by omega
          simpa using hmin j hj'

theorem bidxAux_none_iff {α : Type} [BEq α] {d l : List α} :
    bidxAux d l 0 = none ↔ ∀ j, d.isPrefixOf (l.drop j) = false := by
  induction l with
  | nil =>
    rw [bidxAux_nil]
    cases d with
    | nil =>
      constructor
      · intro h
        simp at h
      · intro hall
        have h0 := hall 0
        simp [List.isPrefixOf] at h0
    | cons a as =>
      constructor
      · intro _ j
        rw [List.drop_nil]
        simp [List.isPrefixOf]
      · intro _
        simp
  | cons c rest ih =>
    cases hp : d.isPrefixOf (c :: rest) with
    | true =>
      rw [bidxAux_cons_pos hp]
      constructor
      · intro h
        cases h
      · intro hall
        have h0 := hall 0
        rw [List.drop_zero, hp] at h0
        cases h0
    | false =>
      rw [bidxAux_cons_neg hp, bidxAux_shift 1]
      constructor
      · intro h j
        have hrest : bidxAux d rest 0 = none := by
          cases hr : bidxAux d rest 0 with
          | none => rfl
          | some m =>
            rw [hr] at h
            simp at h
        cases j with
        | zero => simpa using hp
        | succ j => simpa using (ih.mp hrest) j
      · intro hall
        have hrest : bidxAux d rest 0 = none := ih.mpr (fun j => by simpa using hall (j + 1))
        rw [hrest]
        rfl

theorem bidxAux_some_bound {α : Type} [BEq α] [LawfulBEq α] {d l : List α} {k : Nat}
    (h : bidxAux d l 0 = some k) : k + d.length ≤ l.length := by
  obtain ⟨hpre, hle, -⟩ := bidxAux_some_spec h
  have hlen := isPrefixOf_length_le hpre
  rw [List.length_drop] at hlen
  omega

theorem bidxAux_append_first {α : Type} [BEq α] [LawfulBEq α] {d : List α} (s t : List α)
    (hno : ∀ j, j < s.length → d.isPrefixOf ((s ++ d).drop j) = false) :
    bidxAux d (s ++ d ++ t) 0 = some s.length := by
  induction s with
  | nil =>
    have hpre : d.isPrefixOf (d ++ t) = true := isPrefixOf_iff_exists.mpr ⟨t, rfl⟩
    exact bidxAux_pos_zero hpre
  | cons c s ih =>
    have h0 : d.isPrefixOf ((c :: s) ++ d ++ t) = false := by
      have hx : d.isPrefixOf ((c :: s) ++ d ++ t) = d.isPrefixOf ((c :: s) ++ d) :=
        isPrefixOf_append_eq t (by rw [List.length_append]; omega)
      rw [hx]
      simpa using hno 0 (by simp)
    have h0' : d.isPrefixOf (c :: (s ++ d ++ t)) = false := h0
    have hs : bidxAux d (s ++ d ++ t) 0 = some s.length := by
      refine ih ?_
      intro j hj
      have hd := hno (j + 1) (by simpa using Nat.succ_lt_succ hj)
      simpa using hd
    calc bidxAux d ((c :: s) ++ d ++ t) 0
        = bidxAux d (s ++ d ++ t) 1 := bidxAux_cons_neg h0'
      _ = (bidxAux d (s ++ d ++ t) 0).map (· + 1) := bidxAux_shift 1
      _ = some (s.length + 1) := by rw [hs]; rfl
      _ = some ((c :: s).length) := rfl

theorem bidxAux_none_of_not_contains {α : Type} [BEq α] [LawfulBEq α] {d l : List α}
    (h : containsSub d l = false) : bidxAux d l 0 = none := by
  rw [bidxAux_none_iff]
  intro j
  by_contra hc
  have : containsSub d l = true := containsSub_iff.mpr ⟨j, by simpa using hc⟩
  rw [h] at this
  exact absurd this (by simp)

/-! Supporting lemmas about the greedy segmentation and the splitter. -/

theorem splitSpecF_succ (fuel : Nat) (l d : List Nat) :
    splitSpecF (fuel + 1) l d =
      match bidxAux d l 0 with
      | none => [l]
      | some i => l.take i :: splitSpecF fuel (l.drop (i + d.length)) d := rfl

theorem splitSpecF_fuel {d : List Nat} (hd : d ≠ []) :
    ∀ fuel₁ fuel₂ l, l.length < fuel₁ → l.length < fuel₂ →
      splitSpecF fuel₁ l d = splitSpecF fuel₂ l d := by
  intro fuel₁
  induction fuel₁ with
  | zero =>
    intro fuel₂ l h1 _
    exact absurd h1 (Nat.not_lt_zero _)
  | succ n ih =>
    intro fuel₂ l h1 h2
    cases fuel₂ with
    | zero => exact absurd h2 (Nat.not_lt_zero _)
    | succ m =>
      rw [splitSpecF_succ, splitSpecF_succ]
      cases hb : bidxAux d l 0 with
      | none => rfl
      | some i =>
        have hbound := bidxAux_some_bound hb
        have hdlen : 1 ≤ d.length := by
          cases d with
          | nil => exact absurd rfl hd
          | cons a as => simp
        have hlen' : (l.drop (i + d.length)).length < n := by
          rw [List.length_drop]
          omega
        have hlen'' : (l.drop (i + d.length)).length < m := by
          rw [List.length_drop]
          omega
        show List.take i l :: splitSpecF n (List.drop (i + d.length) l) d =
          List.take i l :: splitSpecF m (List.drop (i + d.length) l) d
        rw [ih m (l.drop (i + d.length)) hlen' hlen'']

theorem splitSpecGreedy_none {l d : List Nat} (h : bidxAux d l 0 = none) :
    splitSpecGreedy l d = [l] := by
  unfold splitSpecGreedy
  rw [splitSpecF_succ, h]

theorem splitSpecGreedy_some {l d : List Nat} {i : Nat} (hd : d ≠ [])
    (h : bidxAux d l 0 = some i) :
    splitSpecGreedy l d = l.take i :: splitSpecGreedy (l.drop (i + d.length)) d := by
  have hbound := bidxAux_some_bound h
  have hdlen : 1 ≤ d.length := by
    cases d with
    | nil => exact absurd rfl hd
    | cons a as => simp
  unfold splitSpecGreedy
  rw [splitSpecF_succ, h]
  show List.take i l :: splitSpecF l.length (List.drop (i + d.length) l) d =
    List.take i l :: splitSpecF ((List.drop (i + d.length) l).length + 1)
      (List.drop (i + d.length) l) d
  congr 1
  apply splitSpecF_fuel hd
  · rw [List.length_drop]
    omega
  · exact Nat.lt_succ_self _

theorem splitSpecGreedy_ne_nil {l d : List Nat} : splitSpecGreedy l d ≠ [] := by
  unfold splitSpecGreedy
  rw [splitSpecF_succ]
  cases bidxAux d l 0 <;> simp

theorem bidxAux_decomp {l d : List Nat} {i : Nat} (h : bidxAux d l 0 = some i) :
    l.take i ++ d ++ l.drop (i + d.length) = l := by
  obtain ⟨hpre, -, -⟩ := bidxAux_some_spec h
  obtain ⟨t, ht⟩ := isPrefixOf_iff_exists.mp hpre
  have hdrop : l.drop (i + d.length) = t := by
    rw [← List.drop_drop, ht, List.drop_left]
  rw [hdrop, List.append_assoc, ← ht, List.take_append_drop]

theorem joinWith_cons {d x : List Nat} {rest : List (List Nat)} (h : rest ≠ []) :
    joinWith d (x :: rest) = x ++ d ++ joinWith d rest := by
  cases rest with
  | nil => exact absurd rfl h
  | cons y ys => rfl

theorem joinWith_splitSpecGreedy_aux {d : List Nat} (hd : d ≠ []) :
    ∀ n l, l.length ≤ n → joinWith d (splitSpecGreedy l d) = l := by
  intro n
  induction n with
  | zero =>
    intro l hl
    have hnil : l = [] := List.eq_nil_of_length_eq_zero (Nat.le_zero.mp hl)
    subst hnil
    have hE : d.isEmpty = false := by
      cases d with
      | nil => exact absurd rfl hd
      | cons a as => rfl
    have hb : bidxAux d ([] : List Nat) 0 = none := by
      rw [bidxAux_nil, hE]
      rfl
    rw [splitSpecGreedy_none hb]
    rfl
  | succ n ih =>
    intro l hl
    cases hb : bidxAux d l 0 with
    | none =>
      rw [splitSpecGreedy_none hb]
      rfl
    | some i =>
      have hbound := bidxAux_some_bound hb
      have hdlen : 1 ≤ d.length := by
        cases d with
        | nil => exact absurd rfl hd
        | cons a as => simp
      rw [splitSpecGreedy_some hd hb,
        joinWith_cons splitSpecGreedy_ne_nil,
        ih (l.drop (i + d.length)) (by rw [List.length_drop]; omega)]
      exact bidxAux_decomp hb

theorem joinWith_splitSpecGreedy {l d : List Nat} (hd : d ≠ []) :
    joinWith d (splitSpecGreedy l d) = l :=
  joinWith_splitSpecGreedy_aux hd l.length l (Nat.le_refl _)

theorem splitSpecGreedy_no_delim_aux {d : List Nat} (hd : d ≠ []) :
    ∀ n l, l.length ≤ n → ∀ x ∈ splitSpecGreedy l d, containsSub d x = false := by
  intro n
  induction n with
  | zero =>
    intro l hl x hx
    have hnil : l = [] := List.eq_nil_of_length_eq_zero (Nat.le_zero.mp hl)
    subst hnil
    have hE : d.isEmpty = false := by
      cases d with
      | nil => exact absurd rfl hd
      | cons a as => rfl
    have hb : bidxAux d ([] : List Nat) 0 = none := by
      rw [bidxAux_nil, hE]
      rfl
    rw [splitSpecGreedy_none hb] at hx
    simp at hx
    subst hx
    cases hc : containsSub d ([] : List Nat) with
    | false => rfl
    | true =>
      obtain ⟨j, hj⟩ := containsSub_iff.mp hc
      rw [List.drop_nil] at hj
      obtain ⟨t, ht⟩ := isPrefixOf_iff_exists.mp hj
      cases d with
      | nil => exact absurd rfl hd
      | cons a as => simp at ht
  | succ n ih =>
    intro l hl x hx
    cases hb : bidxAux d l 0 with
    | none =>
      rw [splitSpecGreedy_none hb] at hx
      simp at hx
      subst hx
      cases hc : containsSub d x with
      | false => rfl
      | true =>
        obtain ⟨j, hj⟩ := containsSub_iff.mp hc
        have := bidxAux_none_iff.mp hb j
        rw [this] at hj
        cases hj
    | some i =>
      have hbound := bidxAux_some_bound hb
      have hdlen : 1 ≤ d.length := by
        cases d with
        | nil => exact absurd rfl hd
        | cons a as => simp
      rw [splitSpecGreedy_some hd hb] at hx
      cases hx with
      | head =>
        cases hc : containsSub d (l.take i) with
        | false => rfl
        | true =>
          obtain ⟨j, hj⟩ := containsSub_iff.mp hc
          have hjlen := isPrefixOf_length_le hj
          rw [List.length_drop, List.length_take] at hjlen
          have hji : j < i := by omega
          have hj' : d.isPrefixOf (l.drop j) = true := by
            apply isPrefixOf_of_take (m := i - j)
            rw [← List.drop_take]
            exact hj
          obtain ⟨-, -, hmin⟩ := bidxAux_some_spec hb
          rw [hmin j hji] at hj'
          cases hj'
      | tail _ hmem =>
        exact ih (l.drop (i + d.length)) (by rw [List.length_drop]; omega) x hmem

theorem splitSpecGreedy_no_delim {l d : List Nat} (hd : d ≠ []) :
    ∀ x ∈ splitSpecGreedy l d, containsSub d x = false :=
  splitSpecGreedy_no_delim_aux hd l.length l (Nat.le_refl _)

theorem splitBufferF_succ (fuel : Nat) (l d : List Nat) (start : Nat) :
    splitBufferF (fuel + 1) l d start =
      match bufIndexOf l d start with
      | none => if start < l.length then [l.drop start] else []
      | some i =>
        (if start < i then [(l.take i).drop start] else []) ++
          splitBufferF fuel l d (i + d.length) := rfl

theorem bufIndexOf_eq_shift (l d : List Nat) (start : Nat) :
    bufIndexOf l d start = (bidxAux d (l.drop start) 0).map (· + start) := by
  unfold bufIndexOf
  exact bidxAux_shift start

theorem splitBufferF_eq {d : List Nat} (hd : d ≠ []) :
    ∀ fuel start l, l.length - start < fuel →
      splitBufferF fuel l d start =
        (splitSpecGreedy (l.drop start) d).filter (fun x => !x.isEmpty) := by
  intro fuel
  induction fuel with
  | zero =>
    intro start l h
    exact absurd h (Nat.not_lt_zero _)
  | succ n ih =>
    intro start l h
    rw [splitBufferF_succ, bufIndexOf_eq_shift]
    cases hb : bidxAux d (l.drop start) 0 with
    | none =>
      rw [splitSpecGreedy_none hb]
      simp only [Option.map_none', List.filter_cons, List.filter_nil]
      by_cases hs : start < l.length
      · have hne : (l.drop start).isEmpty = false := by
          cases hdrop : l.drop start with
          | nil =>
            have hle := List.drop_eq_nil_iff_le.mp hdrop
            omega
          | cons a as => rfl
        rw [if_pos hs, hne]
        rfl
      · have hnil : l.drop start = [] := by
          apply List.drop_eq_nil_of_le
          omega
        rw [if_neg hs, hnil]
        rfl
    | some m =>
      have hbound := bidxAux_some_bound hb
      rw [List.length_drop] at hbound
      have hdlen : 1 ≤ d.length := by
        cases d with
        | nil => exact absurd rfl hd
        | cons a as => simp
      rw [splitSpecGreedy_some hd hb]
      simp only [Option.map_some', List.filter_cons]
      have hdd : (l.drop start).drop (m + d.length) = l.drop (start + (m + d.length)) := by
        rw [List.drop_drop]
      have hidx : m + start + d.length = start + (m + d.length) := by omega
      have hrec : splitBufferF n l d (m + start + d.length) =
          (splitSpecGreedy (l.drop (start + (m + d.length))) d).filter (fun x => !x.isEmpty) := by
        rw [hidx]
        exact ih (start + (m + d.length)) l (by omega)
      rw [hrec, ← hdd]
      have htd : (l.take (m + start)).drop start = (l.drop start).take m := by
        rw [List.drop_take]
        congr 1
        omega
      cases m with
      | zero =>
        have hguard : ¬ start < 0 + start := by omega
        rw [if_neg hguard]
        have hemp : ((l.drop start).take 0).isEmpty = true := rfl
        rw [hemp]
        simp
      | succ m' =>
        have hguard : start < (m' + 1) + start := by omega
        rw [if_pos hguard]
        have hne : ((l.drop start).take (m' + 1)).isEmpty = false := by
          cases hdrop : l.drop start with
          | nil =>
            have hle := List.drop_eq_nil_iff_le.mp hdrop
            exact absurd hbound (by omega)
          | cons a as => rfl
        rw [hne]
        rw [← htd]
        rfl

theorem splitBuffer_eq_filter {l d : List Nat} (hd : d ≠ []) :
    splitBuffer l d = (splitSpecGreedy l d).filter (fun x => !x.isEmpty) := by
  unfold splitBuffer
  rw [splitBufferF_eq hd (l.length + 1) 0 l (by omega)]
  rw [List.drop_zero]

/-! Supporting lemmas about the Boundary Extractor and the header scanners. -/

theorem extractBoundary_some {ct b : List Char} (h : extractBoundary ct = some b) :
    ∃ pre, ct = pre ++ boundaryTok ++ b ∧ b ≠ [] ∧ b.all (fun c => !isLineTerm c) = true := by
  induction ct with
  | nil => cases h
  | cons c rest ih =>
    simp only [extractBoundary] at h
    split at h
    case isTrue hp =>
      split at h
      case isTrue hbad =>
        obtain ⟨pre, hpre, hb, hall⟩ := ih h
        refine ⟨c :: pre, ?_, hb, hall⟩
        show c :: rest = c :: (pre ++ boundaryTok ++ b)
        rw [hpre]
      case isFalse hbad =>
        injection h with h
        obtain ⟨t, ht⟩ := isPrefixOf_iff_exists.mp hp
        have hsuf : (c :: rest).drop boundaryTok.length = t := by
          rw [ht]
          exact List.drop_left _ _
        rw [hsuf] at h hbad
        subst h
        refine ⟨[], ht, ?_, ?_⟩
        · intro hnil
          rw [hnil] at hbad
          exact hbad (by simp)
        · have hany : t.any isLineTerm = false := by
            cases hx : t.any isLineTerm with
            | false => rfl
            | true => exact absurd (by rw [hx]; simp) hbad
          rw [List.all_eq_true]
          intro x hx
          cases hlt : isLineTerm x with
          | false => simp
          | true =>
            have hca : t.any isLineTerm = true := List.any_eq_true.mpr ⟨x, hx, hlt⟩
            rw [hany] at hca
            cases hca
    case isFalse hp =>
      obtain ⟨pre, hpre, hb, hall⟩ := ih h
      refine ⟨c :: pre, ?_, hb, hall⟩
      show c :: rest = c :: (pre ++ boundaryTok ++ b)
      rw [hpre]

theorem extractBoundary_none {ct : List Char} (h : extractBoundary ct = none) :
    ¬ hasUsableBoundary ct := by
  induction ct with
  | nil =>
    rintro ⟨pre, suf, hct, -, -⟩
    have hlen := congrArg List.length hct
    have htok : boundaryTok.length = 9 := rfl
    simp [List.length_append, htok] at hlen
    omega
  | cons c rest ih =>
    simp only [extractBoundary] at h
    split at h
    case isTrue hp =>
      split at h
      case isTrue hbad =>
        rintro ⟨pre, suf, hct, hsuf, hall⟩
        cases pre with
        | nil =>
          have hct' : c :: rest = boundaryTok ++ suf := hct
          have hdrop : (c :: rest).drop boundaryTok.length = suf := by
            rw [hct']
            exact List.drop_left _ _
          rw [hdrop] at hbad
          have hor : suf.isEmpty = true ∨ suf.any isLineTerm = true := by simpa using hbad
          cases hor with
          | inl hemp => exact hsuf (List.isEmpty_iff.mp hemp)
          | inr hany =>
            obtain ⟨x, hx, hlt⟩ := List.any_eq_true.mp hany
            have hax := List.all_eq_true.mp hall x hx
            rw [hlt] at hax
            cases hax
        | cons p pre' =>
          injection hct with h1 h2
          exact ih h ⟨pre', suf, h2, hsuf, hall⟩
      case isFalse hbad => cases h
    case isFalse hp =>
      rintro ⟨pre, suf, hct, hsuf, hall⟩
      cases pre with
      | nil =>
        have hct' : c :: rest = boundaryTok ++ suf := hct
        have : boundaryTok.isPrefixOf (c :: rest) = true :=
          isPrefixOf_iff_exists.mpr ⟨suf, hct'⟩
        simp [this] at hp
      | cons p pre' =>
        injection hct with h1 h2
        exact ih h ⟨pre', suf, h2, hsuf, hall⟩

theorem extractBoundary_some_of_usable {ct : List Char} (h : hasUsableBoundary ct) :
    ∃ b, extractBoundary ct = some b := by
  cases hx : extractBoundary ct with
  | none => exact absurd h (extractBoundary_none hx)
  | some b => exact ⟨b, rfl⟩

theorem ctScan_none_of_not_contains {s : List Char} (h : containsSub mimeTok s = false) :
    ctScan s = none := by
  induction s with
  | nil => rfl
  | cons c rest ih =>
    have hunf : containsSub mimeTok (c :: rest) =
        (mimeTok.isPrefixOf (c :: rest) || containsSub mimeTok rest) := rfl
    rw [hunf] at h
    cases hx : mimeTok.isPrefixOf (c :: rest) with
    | true =>
      rw [hx] at h
      simp at h
    | false =>
      rw [hx] at h
      simp only [Bool.false_or] at h
      simp only [ctScan]
      rw [hx]
      simp only [Bool.false_eq_true, if_false]
      exact ih h

/-! Supporting lemmas about part selection and the decode pipeline. -/

theorem selectFile_none {l : List (List Nat)} (h : ∀ q ∈ l, tryPart q = none) :
    selectFile l = none := by
  induction l with
  | nil => rfl
  | cons q l ih =>
    unfold selectFile
    rw [List.findSome?_cons, h q (by simp)]
    exact ih (fun r hr => h r (by simp [hr]))

theorem selectFile_first {l1 : List (List Nat)} {p : List Nat} {l2 : List (List Nat)}
    {fd : FileData} (h1 : ∀ q ∈ l1, tryPart q = none) (hp : tryPart p = some fd) :
    selectFile (l1 ++ p :: l2) = some fd := by
  induction l1 with
  | nil =>
    unfold selectFile
    rw [List.nil_append, List.findSome?_cons, hp]
  | cons q l1 ih =>
    unfold selectFile
    rw [List.cons_append, List.findSome?_cons, h1 q (by simp)]
    exact ih (fun r hr => h1 r (by simp [hr]))

theorem parseMultipartFile_ok {ct : List Char} {body : List Nat} {boundary : List Char}
    (hct : containsSub mfdTok ct = true) (hb : extractBoundary ct = some boundary)
    (hbody : ¬ body.length = 0) :
    parseMultipartFile (some ct) (some body) =
      .ok (selectFile (splitBuffer body (encodeChars (strL "--" ++ boundary)))) := by
  have h1 : parseMultipartFile (some ct) (some body) =
      (if !containsSub mfdTok ct then Except.error ParseErr.invalidContentType
       else
         match extractBoundary ct with
         | none => Except.error ParseErr.noBoundary
         | some boundary =>
           if body.length = 0 then Except.ok none
           else
             Except.ok (selectFile (splitBuffer body (encodeChars (strL "--" ++ boundary))))) :=
    rfl
  rw [h1, hct]
  rw [if_neg (show ¬((!true) = true) by simp)]
  rw [hb]
  show (if body.length = 0 then Except.ok none
    else Except.ok (selectFile (splitBuffer body (encodeChars (strL "--" ++ boundary))))) = _
  rw [if_neg hbody]

theorem parseMultipartFile_not_multipart {ct : List Char} (body : Option (List Nat))
    (hc : containsSub mfdTok ct = false) :
    parseMultipartFile (some ct) body = .error .invalidContentType := by
  have h1 : parseMultipartFile (some ct) body =
      (if !containsSub mfdTok ct then Except.error ParseErr.invalidContentType
       else
         match extractBoundary ct with
         | none => Except.error ParseErr.noBoundary
         | some boundary =>
           match body with
           | none => Except.ok none
           | some b2 =>
             if b2.length = 0 then Except.ok none
             else Except.ok (selectFile (splitBuffer b2 (encodeChars (strL "--" ++ boundary))))) :=
    rfl
  rw [h1, hc]
  rfl

theorem parseMultipartFile_noBoundary {ct : List Char} (body : Option (List Nat))
    (hc : containsSub mfdTok ct = true) (hb : extractBoundary ct = none) :
    parseMultipartFile (some ct) body = .error .noBoundary := by
  have h1 : parseMultipartFile (some ct) body =
      (if !containsSub mfdTok ct then Except.error ParseErr.invalidContentType
       else
         match extractBoundary ct with
         | none => Except.error ParseErr.noBoundary
         | some boundary =>
           match body with
           | none => Except.ok none
           | some b2 =>
             if b2.length = 0 then Except.ok none
             else Except.ok (selectFile (splitBuffer b2 (encodeChars (strL "--" ++ boundary))))) :=
    rfl
  rw [h1, hc]
  rw [if_neg (show ¬((!true) = true) by simp)]
  rw [hb]

theorem parseMultipartFile_empty_body {ct : List Char} {body : List Nat} {bd : List Char}
    (hc : containsSub mfdTok ct = true) (hb : extractBoundary ct = some bd)
    (hl : body.length = 0) :
    parseMultipartFile (some ct) (some body) = .ok none := by
  have h1 : parseMultipartFile (some ct) (some body) =
      (if !containsSub mfdTok ct then Except.error ParseErr.invalidContentType
       else
         match extractBoundary ct with
         | none => Except.error ParseErr.noBoundary
         | some boundary =>
           if body.length = 0 then Except.ok none
           else
             Except.ok (selectFile (splitBuffer body (encodeChars (strL "--" ++ boundary))))) :=
    rfl
  rw [h1, hc]
  rw [if_neg (show ¬((!true) = true) by simp)]
  rw [hb]
  show (if body.length = 0 then Except.ok none
    else Except.ok (selectFile (splitBuffer body (encodeChars (strL "--" ++ bd))))) = _
  rw [if_pos hl]

theorem tryPart_none_of_no_sep {part : List Nat} (h : bidxAux crlfcrlf part 0 = none) :
    tryPart part = none := by
  unfold tryPart
  by_cases hl : part.length = 0
  · rw [if_pos hl]
  · rw [if_neg hl, h]

theorem tryPart_some_elim {part : List Nat} {fd : FileData} (h : tryPart part = some fd) :
    ∃ k, bidxAux crlfcrlf part 0 = some k ∧
      containsSub cdTok (decodeBytes (part.take k)) = true ∧
      containsSub fnTok (decodeBytes (part.take k)) = true ∧
      fd = { filename := match fnScan (decodeBytes (part.take k)) with
               | some v => v
               | none => strL "unknown"
             mimeType := match ctScan (decodeBytes (part.take k)) with
               | some cap => jsTrim cap
               | none => strL "application/octet-stream"
             content := part.drop (k + 4) } := by
  unfold tryPart at h
  by_cases hl : part.length = 0
  · rw [if_pos hl] at h
    cases h
  · rw [if_neg hl] at h
    cases hk : bidxAux crlfcrlf part 0 with
    | none =>
      rw [hk] at h
      cases h
    | some k =>
      rw [hk] at h
      dsimp only at h
      split at h
      next hcond =>
        injection h with h
        obtain ⟨hcd, hfn⟩ : containsSub cdTok (decodeBytes (part.take k)) = true ∧
            containsSub fnTok (decodeBytes (part.take k)) = true := by simpa using hcond
        exact ⟨k, rfl, hcd, hfn, h.symm⟩
      next hcond => cases h

theorem tryPart_some_intro {part : List Nat} {k : Nat}
    (hl : ¬ part.length = 0) (hk : bidxAux crlfcrlf part 0 = some k)
    (hcd : containsSub cdTok (decodeBytes (part.take k)) = true)
    (hfn : containsSub fnTok (decodeBytes (part.take k)) = true) :
    tryPart part =
      some { filename := match fnScan (decodeBytes (part.take k)) with
               | some v => v
               | none => strL "unknown"
             mimeType := match ctScan (decodeBytes (part.take k)) with
               | some cap => jsTrim cap
               | none => strL "application/octet-stream"
             content := part.drop (k + 4) } := by
  unfold tryPart
  rw [if_neg hl, hk]
  dsimp only
  rw [if_pos (show (containsSub cdTok (decodeBytes (part.take k)) &&
    containsSub fnTok (decodeBytes (part.take k))) = true by rw [hcd, hfn]; rfl)]

theorem splitSpecGreedy_append {d : List Nat} (hd : d ≠ []) {s t : List Nat}
    (hno : ∀ j, j < s.length → d.isPrefixOf ((s ++ d).drop j) = false) :
    splitSpecGreedy (s ++ d ++ t) d = s :: splitSpecGreedy t d := by
  have hidx := bidxAux_append_first s t hno
  rw [splitSpecGreedy_some hd hidx]
  congr 1
  · rw [List.append_assoc, List.take_left]
  · congr 1
    exact List.drop_left' (by rw [List.length_append])

theorem splitBuffer_nil (d : List Nat) : splitBuffer [] d = [] := by
  cases d with
  | nil => rfl
  | cons a as => rfl

/-! Supporting lemmas about the upload operations. -/

theorem uploadFile_ok {maxFileSize : Nat} {allowed : List (List Char)}
    {ct : Option (List Char)} {body : Option (List Nat)} {u : Option (List Char)}
    {fd : FileData} (hp : parseMultipartFile ct body = .ok (some fd))
    (hle : ¬ fd.content.length > maxFileSize) :
    uploadFile maxFileSize allowed ct body u =
      (.ok { mimeType := fd.mimeType
             sizeBytes := fd.content.length
             ownerUserId :=
               match u with
               | none => strL "anonymous"
               | some s => if s.isEmpty then strL "anonymous" else s },
       [fd.content]) := by
  unfold uploadFile
  rw [hp]
  dsimp only
  rw [if_neg hle]

theorem uploadFile_tooLarge {maxFileSize : Nat} {allowed : List (List Char)}
    {ct : Option (List Char)} {body : Option (List Nat)} {u : Option (List Char)}
    {fd : FileData} (hp : parseMultipartFile ct body = .ok (some fd))
    (hgt : fd.content.length > maxFileSize) :
    uploadFile maxFileSize allowed ct body u = (.error .tooLarge, []) := by
  unfold uploadFile
  rw [hp]
  dsimp only
  rw [if_pos hgt]

theorem uploadAndCreateMedia_tooLarge {maxFileSize : Nat} {allowed : List (List Char)}
    {ct : Option (List Char)} {body : Option (List Nat)} {uid : List Char}
    {fd : FileData} (hp : parseMultipartFile ct body = .ok (some fd))
    (hgt : fd.content.length > maxFileSize) :
    uploadAndCreateMedia maxFileSize allowed ct body uid = (.error .tooLarge, []) := by
  unfold uploadAndCreateMedia
  rw [hp]
  dsimp only
  rw [if_pos hgt]

/-! Claim theorems. -/

/-- C2: when the selected file part's byte length exceeds the configured
maximum file size, both upload operations fail with `PayloadTooLarge`
(`tooLarge`) and the list of storage writes is empty — the size check happens
strictly before the Storage Writer is invoked, so no file is created. -/
theorem C2_size_check_before_storage (maxFileSize : Nat) (allowed : List (List Char))
    (ct : Option (List Char)) (body : Option (List Nat)) (u : Option (List Char))
    (uid : List Char) (fd : FileData)
    (hp : parseMultipartFile ct body = .ok (some fd))
    (hgt : fd.content.length > maxFileSize) :
    uploadFile maxFileSize allowed ct body u = (.error .tooLarge, []) ∧
      uploadAndCreateMedia maxFileSize allowed ct body uid = (.error .tooLarge, []) :=
  ⟨uploadFile_tooLarge hp hgt, uploadAndCreateMedia_tooLarge hp hgt⟩

/-- C2 witness: a concrete scenario-A upload whose decoded content (3 bytes)
exceeds a 2-byte maximum fails with `tooLarge` and performs no storage
write. -/
theorem C2_size_check_before_storage_witness :
    uploadFile 2 [] (some ctX) (some (encodeScenarioA [65])) none =
        (.error .tooLarge, []) ∧
      uploadAndCreateMedia 2 [] (some ctX) (some (encodeScenarioA [65])) (strL "u") =
        (.error .tooLarge, []) :=
  C2_size_check_before_storage 2 [] (some ctX) (some (encodeScenarioA [65])) none
    (strL "u")
    { filename := strL "a.png", mimeType := strL "image/png", content := [65, 13, 10] }
    rfl (by decide)

/-- C5: the Part Splitter splits on the delimiter `--` + boundary in a single
greedy left-to-right pass: `splitBuffer` returns exactly the segments of the
greedy segmentation `splitSpecGreedy` with empty segments dropped; the
segmentation's segments joined back by the delimiter reproduce the body
(so they are precisely what stands between consecutive delimiter
occurrences); no segment contains a delimiter occurrence (maximality); the
empty part is never emitted; and an empty body yields zero parts. -/
theorem C5_splitter (body : List Nat) (boundary : List Char) :
    splitBuffer body (encodeChars (strL "--" ++ boundary)) =
        (splitSpecGreedy body (encodeChars (strL "--" ++ boundary))).filter
          (fun x => !x.isEmpty) ∧
      joinWith (encodeChars (strL "--" ++ boundary))
          (splitSpecGreedy body (encodeChars (strL "--" ++ boundary))) = body ∧
      (∀ x ∈ splitSpecGreedy body (encodeChars (strL "--" ++ boundary)),
        containsSub (encodeChars (strL "--" ++ boundary)) x = false) ∧
      [] ∉ splitBuffer body (encodeChars (strL "--" ++ boundary)) ∧
      splitBuffer [] (encodeChars (strL "--" ++ boundary)) = [] := by
  have hd : encodeChars (strL "--" ++ boundary) ≠ [] := by
    simp [encodeChars, strL]
  refine ⟨splitBuffer_eq_filter hd, joinWith_splitSpecGreedy hd,
    splitSpecGreedy_no_delim hd, ?_, splitBuffer_nil _⟩
  intro hmem
  rw [splitBuffer_eq_filter hd] at hmem
  have hp := List.of_mem_filter hmem
  simp at hp

/-- C5 witness: the splitter applied to the concrete body `aa--Xbb--Xcc`
with boundary `X` — the parts are the maximal non-empty segments, the
segmentation joins back to the body, the middle segment contains no
delimiter, and an empty body yields zero parts. -/
theorem C5_splitter_witness :
    splitBuffer (encodeChars (strL "aa--Xbb--Xcc")) (encodeChars (strL "--" ++ strL "X")) =
        (splitSpecGreedy (encodeChars (strL "aa--Xbb--Xcc"))
          (encodeChars (strL "--" ++ strL "X"))).filter (fun x => !x.isEmpty) ∧
      joinWith (encodeChars (strL "--" ++ strL "X"))
          (splitSpecGreedy (encodeChars (strL "aa--Xbb--Xcc"))
            (encodeChars (strL "--" ++ strL "X"))) =
        encodeChars (strL "aa--Xbb--Xcc") ∧
      containsSub (encodeChars (strL "--" ++ strL "X")) (encodeChars (strL "bb")) = false ∧
      splitBuffer [] (encodeChars (strL "--" ++ strL "X")) = [] := by
  have h := C5_splitter (encodeChars (strL "aa--Xbb--Xcc")) (strL "X")
  exact ⟨h.1, h.2.1, h.2.2.1 (encodeChars (strL "bb")) (by decide), h.2.2.2.2⟩

/-- C7: decoding is deterministic and side-effect-free up to the Storage
Writer: the decode function is pure, so running it twice on the same input
yields structurally identical results, and whenever the upload operation
fails (all failures occur before the storage write) its storage-write trace
is empty. -/
theorem C7_decode_deterministic (ct : Option (List Char)) (body : Option (List Nat)) :
    parseMultipartFile ct body = parseMultipartFile ct body ∧
      (∀ (maxFileSize : Nat) (allowed : List (List Char)) (u : Option (List Char))
        (e : UploadErr),
        (uploadFile maxFileSize allowed ct body u).1 = .error e →
        (uploadFile maxFileSize allowed ct body u).2 = []) := by
  refine ⟨rfl, ?_⟩
  intro maxFileSize allowed u e he
  cases hp : parseMultipartFile ct body with
  | error pe =>
    unfold uploadFile
    rw [hp]
  | ok o =>
    cases o with
    | none =>
      unfold uploadFile
      rw [hp]
    | some fd =>
      by_cases hgt : fd.content.length > maxFileSize
      · rw [uploadFile_tooLarge hp hgt]
      · rw [@uploadFile_ok maxFileSize allowed ct body u fd hp hgt] at he
        cases he

/-- C7 witness: a request without a multipart content-type fails, and its
storage-write trace is empty. -/
theorem C7_decode_deterministic_witness :
    (uploadFile 10 [] (some (strL "text/plain")) (some [1, 2, 3]) none).2 = [] :=
  (C7_decode_deterministic (some (strL "text/plain")) (some [1, 2, 3])).2 10 [] none
    (.parse .invalidContentType) rfl

/-- C9: the configured allowed-MIME-types list is never consulted in the
upload path: `uploadFile` returns identical results for any two allow-lists,
and a decoded file part within the size limit is uploaded successfully (the
storage write happens and the record keeps the part's MIME type) for every
allow-list, whether or not the MIME type belongs to it. -/
theorem C9_allow_list_unused :
    (∀ (maxFileSize : Nat) (a₁ a₂ : List (List Char)) (ct : Option (List Char))
        (body : Option (List Nat)) (u : Option (List Char)),
        uploadFile maxFileSize a₁ ct body u = uploadFile maxFileSize a₂ ct body u) ∧
      (∀ (maxFileSize : Nat) (allowed : List (List Char)) (ct : Option (List Char))
        (body : Option (List Nat)) (u : Option (List Char)) (fd : FileData),
        parseMultipartFile ct body = .ok (some fd) →
        fd.content.length ≤ maxFileSize →
        ∃ r, uploadFile maxFileSize allowed ct body u = (.ok r, [fd.content]) ∧
          r.mimeType = fd.mimeType) := by
  constructor
  · intro maxFileSize a₁ a₂ ct body u
    unfold uploadFile
    rfl
  · intro maxFileSize allowed ct body u fd hp hle
    exact ⟨_, uploadFile_ok hp (by omega), rfl⟩

/-- C9 witness: a scenario-A upload whose MIME type `image/png` is not in
the allow-list `[video/mp4]` still succeeds, writes the bytes, and two
different allow-lists give identical results. -/
theorem C9_allow_list_unused_witness :
    uploadFile 10 [ strL "video/mp4"] (some ctX) (some (encodeScenarioA [65])) none =
        uploadFile 10 [] (some ctX) (some (encodeScenarioA [65])) none ∧
      ∃ r, uploadFile 10 [ strL "video/mp4"] (some ctX) (some (encodeScenarioA [65])) none =
          (.ok r, [[65, 13, 10]]) ∧ r.mimeType = strL "image/png" := by
  constructor
  · exact C9_allow_list_unused.1 10 [ strL "video/mp4"] [] (some ctX)
      (some (encodeScenarioA [65])) none
  · exact C9_allow_list_unused.2 10 [ strL "video/mp4"] (some ctX)
      (some (encodeScenarioA [65])) none
      { filename := strL "a.png", mimeType := strL "image/png", content := [65, 13, 10] }
      rfl (by decide)

/-- C10: an upload on a request with no authenticated user (`request.user`
absent or without a `sub` claim, modelled by `userSub = none`) does not
fail: the record is persisted with `ownerUserId` equal to the literal string
`anonymous`. -/
theorem C10_anonymous_owner (maxFileSize : Nat) (allowed : List (List Char))
    (ct : Option (List Char)) (body : Option (List Nat)) (fd : FileData)
    (hp : parseMultipartFile ct body = .ok (some fd))
    (hle : fd.content.length ≤ maxFileSize) :
    ∃ r, uploadFile maxFileSize allowed ct body none = (.ok r, [fd.content]) ∧
      r.ownerUserId = strL "anonymous" :=
  ⟨_, uploadFile_ok hp (by omega), rfl⟩

/-- C10 witness: a concrete scenario-A upload without a user persists the
record with owner `anonymous`. -/
theorem C10_anonymous_owner_witness :
    ∃ r, uploadFile 10 [] (some ctX) (some (encodeScenarioA [65])) none =
        (.ok r, [[65, 13, 10]]) ∧ r.ownerUserId = strL "anonymous" :=
  C10_anonymous_owner 10 [] (some ctX) (some (encodeScenarioA [65]))
    { filename := strL "a.png", mimeType := strL "image/png", content := [65, 13, 10] }
    rfl (by decide)

/-- C6: the Part Header Parser locates the first `\r\n\r\n`; a part without
the separator is discarded (never a file part); for a part with the
separator at index `k`, a returned file's content is exactly the bytes after
the separator, `part.drop (k + 4)`, with no further trimming; and when the
header text contains no `Content-Type:` the resolved MIME type defaults to
`application/octet-stream`. -/
theorem C6_header_separation (part : List Nat) :
    (bidxAux crlfcrlf part 0 = none → tryPart part = none) ∧
      (∀ (k : Nat) (fd : FileData), bidxAux crlfcrlf part 0 = some k →
        tryPart part = some fd → fd.content = part.drop (k + 4)) ∧
      (∀ (k : Nat) (fd : FileData), bidxAux crlfcrlf part 0 = some k →
        containsSub mimeTok (decodeBytes (part.take k)) = false →
        tryPart part = some fd → fd.mimeType = strL "application/octet-stream") := by
  refine ⟨tryPart_none_of_no_sep, ?_, ?_⟩
  · intro k fd hk h
    obtain ⟨k', hk', -, -, hfd⟩ := tryPart_some_elim h
    rw [hk] at hk'
    injection hk' with hk'
    subst hk'
    rw [hfd]
  · intro k fd hk hct h
    obtain ⟨k', hk', -, -, hfd⟩ := tryPart_some_elim h
    rw [hk] at hk'
    injection hk' with hk'
    subst hk'
    rw [hfd]
    show (match ctScan (decodeBytes (part.take k)) with
      | some cap => jsTrim cap
      | none => strL "application/octet-stream") = strL "application/octet-stream"
    rw [ctScan_none_of_not_contains hct]

/-- C6 witness: a concrete part whose separator sits at byte 54 — its
content is the bytes after the separator, its headers carry no
`Content-Type:` so the MIME type defaults, and a separator-free part is
discarded. -/
theorem C6_header_separation_witness :
    tryPart (encodeChars (strL "no separator here")) = none ∧
      (({ filename := strL "x", mimeType := strL "application/octet-stream",
          content := encodeChars (strL "BODY") } : FileData)).content =
        (encodeChars
          (strL "Content-Disposition: form-data; name=\x22f\x22; filename=\x22x\x22\r\n\r\nBODY")).drop
          (54 + 4) ∧
      (({ filename := strL "x", mimeType := strL "application/octet-stream",
          content := encodeChars (strL "BODY") } : FileData)).mimeType =
        strL "application/octet-stream" := by
  refine ⟨(C6_header_separation _).1 (by decide), ?_, ?_⟩
  · exact (C6_header_separation _).2.1 54
      { filename := strL "x", mimeType := strL "application/octet-stream",
        content := encodeChars (strL "BODY") } (by decide) rfl
  · exact (C6_header_separation
      (encodeChars
        (strL "Content-Disposition: form-data; name=\x22f\x22; filename=\x22x\x22\r\n\r\nBODY"))).2.2
      54
      { filename := strL "x", mimeType := strL "application/octet-stream",
        content := encodeChars (strL "BODY") } (by decide) (by decide) rfl

/-- C8 (amended): part header matching is case-sensitive, not
case-insensitive: a part is recognised as a file part exactly when its
header text contains the exact substrings `Content-Disposition: form-data`
and `filename=` (changing only the case of the header names loses the
match, see the counterexample). -/
theorem C8_case_sensitive_matching (part : List Nat) :
    (tryPart part).isSome = true ↔
      (¬ part.length = 0 ∧ ∃ k, bidxAux crlfcrlf part 0 = some k ∧
        containsSub cdTok (decodeBytes (part.take k)) = true ∧
        containsSub fnTok (decodeBytes (part.take k)) = true) := by
  constructor
  · intro hs
    obtain ⟨fd, hfd⟩ := Option.isSome_iff_exists.mp hs
    obtain ⟨k, hk, hcd, hfn, -⟩ := tryPart_some_elim hfd
    refine ⟨?_, k, hk, hcd, hfn⟩
    intro hl
    rw [show tryPart part = none by unfold tryPart; rw [if_pos hl]] at hfd
    cases hfd
  · rintro ⟨hl, k, hk, hcd, hfn⟩
    rw [tryPart_some_intro hl hk hcd hfn]
    rfl

/-- C8 counterexample: two multipart bodies that differ only in the letter
case of the part header names (`Content-Disposition`/`Content-Type` versus
`content-disposition`/`content-type`): the canonical-case body decodes to a
file, the lower-case body decodes to no file at all — so changing only the
case of header names does change whether the part is recognised, refuting
the claimed case-insensitivity. -/
theorem C8_case_sensitive_matching_cex :
    parseMultipartFile (some ctX)
        (some (encodeChars
          (strL "--X\r\nContent-Disposition: form-data; name=\x22f\x22; filename=\x22x\x22\r\nContent-Type: image/png\r\n\r\nZZ\r\n--X--\r\n"))) =
      .ok (some { filename := strL "x", mimeType := strL "image/png",
                  content := [90, 90, 13, 10] }) ∧
    parseMultipartFile (some ctX)
        (some (encodeChars
          (strL "--X\r\ncontent-disposition: form-data; name=\x22f\x22; filename=\x22x\x22\r\ncontent-type: image/png\r\n\r\nZZ\r\n--X--\r\n"))) =
      .ok none :=
  ⟨rfl, rfl⟩

/-- C8 witness: the amended characterisation applied to a concrete
canonical-case part (separator at byte 54). -/
theorem C8_case_sensitive_matching_witness :
    (tryPart (encodeChars
      (strL "Content-Disposition: form-data; name=\x22f\x22; filename=\x22x\x22\r\n\r\nBODY"))).isSome =
      true :=
  (C8_case_sensitive_matching _).mpr ⟨by decide, 54, by decide, by decide, by decide⟩

/-- C3 (amended): the File Part Selector returns the value of the first part
whose header text contains both exact substrings
`Content-Disposition: form-data` and `filename=` (a part qualifies even with
an empty or unparseable filename value, in which case the filename defaults
to `unknown`); all later parts are ignored; if no part qualifies the decode
yields no file (`NoFileFound` at the upload layer); and the decode pipeline
applies this selection to the split parts. -/
theorem C3_first_qualifying_part :
    (∀ (l1 : List (List Nat)) (p : List Nat) (l2 : List (List Nat)) (fd : FileData),
        (∀ q ∈ l1, tryPart q = none) → tryPart p = some fd →
        selectFile (l1 ++ p :: l2) = some fd) ∧
      (∀ l : List (List Nat), (∀ q ∈ l, tryPart q = none) → selectFile l = none) ∧
      (∀ (ct : List Char) (body : List Nat) (boundary : List Char),
        containsSub mfdTok ct = true → extractBoundary ct = some boundary →
        ¬ body.length = 0 →
        parseMultipartFile (some ct) (some body) =
          .ok (selectFile (splitBuffer body (encodeChars (strL "--" ++ boundary))))) :=
  ⟨fun _ _ _ _ => selectFile_first, fun _ => selectFile_none,
    fun _ _ _ => parseMultipartFile_ok⟩

/-- C3 counterexample: a body whose only part carries an *empty* filename
(`filename=""`) — the claim says no part carries a non-empty filename, so
the result should be `NoFileFound` (no file, `.ok none`); the code instead
selects the part, with filename defaulting to `unknown`. -/
theorem C3_first_qualifying_part_cex :
    parseMultipartFile (some ctX)
        (some (encodeChars
          (strL "--X\r\nContent-Disposition: form-data; name=\x22f\x22; filename=\x22\x22\r\n\r\nZZ\r\n--X--\r\n"))) =
      .ok (some { filename := strL "unknown", mimeType := strL "application/octet-stream",
                  content := [90, 90, 13, 10] }) ∧
    (Except.ok (some { filename := strL "unknown",
                       mimeType := strL "application/octet-stream",
                       content := [90, 90, 13, 10] }) ≠
      (Except.ok none : Except ParseErr (Option FileData))) :=
  ⟨rfl, by simp⟩

/-- C3 witness: with two file-bearing parts the first is selected, and a
lone caption part (no filename) selects nothing. -/
theorem C3_first_qualifying_part_witness :
    selectFile
        [encodeChars (strL "\r\nContent-Disposition: form-data; name=\x22a\x22; filename=\x22a.txt\x22\r\n\r\nAAA"),
         encodeChars (strL "\r\nContent-Disposition: form-data; name=\x22b\x22; filename=\x22b.txt\x22\r\n\r\nBBB")] =
      some { filename := strL "a.txt", mimeType := strL "application/octet-stream",
             content := encodeChars (strL "AAA") } ∧
    selectFile [encodeChars (strL "\r\nContent-Disposition: form-data; name=\x22caption\x22\r\n\r\nhello")] =
      none := by
  constructor
  · exact C3_first_qualifying_part.1 []
      (encodeChars (strL "\r\nContent-Disposition: form-data; name=\x22a\x22; filename=\x22a.txt\x22\r\n\r\nAAA"))
      [encodeChars (strL "\r\nContent-Disposition: form-data; name=\x22b\x22; filename=\x22b.txt\x22\r\n\r\nBBB")]
      { filename := strL "a.txt", mimeType := strL "application/octet-stream",
        content := encodeChars (strL "AAA") }
      (by intro q hq; simp at hq) rfl
  · refine C3_first_qualifying_part.2.1
      [encodeChars (strL "\r\nContent-Disposition: form-data; name=\x22caption\x22\r\n\r\nhello")] ?_
    intro q hq
    simp at hq
    subst hq
    decide

/-- C4 (amended): the decode fails at the content-type stage exactly when
the header lacks the substring `multipart/form-data` or admits no usable
boundary capture — an occurrence of `boundary=` followed by a non-empty,
line-terminator-free suffix (`/boundary=(.+)$/`); in particular a bare
`boundary=` with an empty value is rejected, which refutes the claim's
"contains no boundary= parameter" reading (see the counterexample).  When
extraction succeeds, the boundary is exactly the verbatim suffix of the
header following `boundary=`, with no further decoding. -/
theorem C4_boundary_extractor (ct : List Char) (body : List Nat) :
    ((∃ e, parseMultipartFile (some ct) (some body) = .error e) ↔
      (containsSub mfdTok ct = false ∨ ¬ hasUsableBoundary ct)) ∧
    (∀ b, extractBoundary ct = some b →
      ∃ pre, ct = pre ++ boundaryTok ++ b ∧ b ≠ [] ∧
        b.all (fun c => !isLineTerm c) = true) := by
  refine ⟨⟨?_, ?_⟩, fun b hb => extractBoundary_some hb⟩
  · rintro ⟨e, he⟩
    cases hc : containsSub mfdTok ct with
    | false => exact Or.inl rfl
    | true =>
      cases hbx : extractBoundary ct with
      | none => exact Or.inr (extractBoundary_none hbx)
      | some bd =>
        by_cases hl : body.length = 0
        · rw [parseMultipartFile_empty_body hc hbx hl] at he
          cases he
        · rw [parseMultipartFile_ok hc hbx hl] at he
          cases he
  · intro h
    cases hc : containsSub mfdTok ct with
    | false => exact ⟨.invalidContentType, parseMultipartFile_not_multipart (some body) hc⟩
    | true =>
      cases hbx : extractBoundary ct with
      | none => exact ⟨.noBoundary, parseMultipartFile_noBoundary (some body) hc hbx⟩
      | some bd =>
        cases h with
        | inl hcf =>
          rw [hc] at hcf
          cases hcf
        | inr hnb =>
          obtain ⟨pre, hpre, hbne, hall⟩ := extractBoundary_some hbx
          exact absurd ⟨pre, bd, hpre, hbne, hall⟩ hnb

/-- C4 counterexample: the header `multipart/form-data; boundary=` contains
the token `multipart/form-data` and the parameter text `boundary=`, yet the
extractor fails (`/boundary=(.+)$/` needs a non-empty value) — refuting the
claimed "if and only if". -/
theorem C4_boundary_extractor_cex :
    parseMultipartFile (some (strL "multipart/form-data; boundary=")) (some [65]) =
        .error .noBoundary ∧
      containsSub (strL "boundary=") (strL "multipart/form-data; boundary=") = true ∧
      containsSub mfdTok (strL "multipart/form-data; boundary=") = true :=
  ⟨rfl, by decide, by decide⟩

/-- C4 witness: for the scenario-A header the extracted boundary `X` is the
verbatim suffix following `boundary=`. -/
theorem C4_boundary_extractor_witness :
    ∃ pre, ctX = pre ++ boundaryTok ++ strL "X" ∧ strL "X" ≠ [] ∧
      (strL "X").all (fun c => !isLineTerm c) = true :=
  (C4_boundary_extractor ctX [65]).2 (strL "X") rfl

/-- C1 (amended): decoding a standard (RFC 2046) single-file multipart body
does *not* return the part's bytes unchanged: the CRLF that precedes the
closing delimiter is kept in the returned content, so for every content byte
sequence (whose enclosing part, up to the following delimiter, contains no
delimiter occurrence — the splitter's known limitation) the decode returns
`content ++ [13, 10]`, i.e. the original bytes plus a 2-byte CRLF suffix. -/
theorem C1_round_trip_appends_crlf (content : List Nat)
    (hno : ∀ j, j < (encodeChars scenarioHdr ++ crlfcrlf ++ content ++ [13, 10]).length →
      dX.isPrefixOf
        (((encodeChars scenarioHdr ++ crlfcrlf ++ content ++ [13, 10]) ++ dX).drop j) =
        false) :
    parseMultipartFile (some ctX) (some (encodeScenarioA content)) =
      .ok (some { filename := strL "a.png", mimeType := strL "image/png",
                  content := content ++ [13, 10] }) := by
  have hd : dX ≠ [] := by decide
  have hc : containsSub mfdTok ctX = true := by decide
  have hbx : extractBoundary ctX = some (strL "X") := by decide
  have hdelim : encodeChars (strL "--" ++ strL "X") = dX := by decide
  have hlen : ¬ (encodeScenarioA content).length = 0 := by
    intro h0
    obtain ⟨r, hr⟩ : ∃ r, encodeScenarioA content = 45 :: r := ⟨_, rfl⟩
    rw [hr] at h0
    simp at h0
  rw [parseMultipartFile_ok hc hbx hlen, hdelim]
  have hbody : encodeScenarioA content =
      dX ++ ((encodeChars scenarioHdr ++ crlfcrlf ++ content ++ [13, 10]) ++ dX ++
        encodeChars (strL "--\r\n")) := by
    unfold encodeScenarioA
    simp only [List.append_assoc]
  have hsplitSpec : splitSpecGreedy (encodeScenarioA content) dX =
      [] :: (encodeChars scenarioHdr ++ crlfcrlf ++ content ++ [13, 10]) ::
        [encodeChars (strL "--\r\n")] := by
    rw [hbody]
    have h1 : dX ++ ((encodeChars scenarioHdr ++ crlfcrlf ++ content ++ [13, 10]) ++ dX ++
        encodeChars (strL "--\r\n")) =
        [] ++ dX ++ ((encodeChars scenarioHdr ++ crlfcrlf ++ content ++ [13, 10]) ++ dX ++
          encodeChars (strL "--\r\n")) := rfl
    rw [h1]
    rw [splitSpecGreedy_append hd (by intro j hj; simp at hj)]
    rw [splitSpecGreedy_append hd hno]
    rw [splitSpecGreedy_none (bidxAux_none_of_not_contains (by decide))]
  have hfilter : splitBuffer (encodeScenarioA content) dX =
      [encodeChars scenarioHdr ++ crlfcrlf ++ content ++ [13, 10],
       encodeChars (strL "--\r\n")] := by
    rw [splitBuffer_eq_filter hd, hsplitSpec]
    rfl
  have hA2 : encodeChars scenarioHdr ++ crlfcrlf ++ content ++ [13, 10] =
      encodeChars scenarioHdr ++ crlfcrlf ++ (content ++ [13, 10]) := by
    simp only [List.append_assoc]
  have htake : (encodeChars scenarioHdr ++ crlfcrlf ++ content ++ [13, 10]).take 88 =
      encodeChars scenarioHdr := by
    rw [hA2, List.append_assoc]
    exact List.take_left' (by decide)
  have hdrop : (encodeChars scenarioHdr ++ crlfcrlf ++ content ++ [13, 10]).drop (88 + 4) =
      content ++ [13, 10] := by
    rw [hA2]
    exact List.drop_left' (by decide)
  have hk : bidxAux crlfcrlf (encodeChars scenarioHdr ++ crlfcrlf ++ content ++ [13, 10]) 0 =
      some 88 := by
    rw [hA2]
    rw [bidxAux_append_first (d := crlfcrlf) (encodeChars scenarioHdr)
      (content ++ [13, 10]) (by decide)]
    rfl
  have hl : ¬ (encodeChars scenarioHdr ++ crlfcrlf ++ content ++ [13, 10]).length = 0 := by
    intro h0
    obtain ⟨r, hr⟩ : ∃ r,
        encodeChars scenarioHdr ++ crlfcrlf ++ content ++ [13, 10] = 13 :: r := ⟨_, rfl⟩
    rw [hr] at h0
    simp at h0
  have hcd : containsSub cdTok
      (decodeBytes ((encodeChars scenarioHdr ++ crlfcrlf ++ content ++ [13, 10]).take 88)) =
      true := by
    rw [htake]
    decide
  have hfn : containsSub fnTok
      (decodeBytes ((encodeChars scenarioHdr ++ crlfcrlf ++ content ++ [13, 10]).take 88)) =
      true := by
    rw [htake]
    decide
  have htry : tryPart (encodeChars scenarioHdr ++ crlfcrlf ++ content ++ [13, 10]) =
      some { filename := strL "a.png", mimeType := strL "image/png",
             content := content ++ [13, 10] } := by
    rw [tryPart_some_intro hl hk hcd hfn]
    rw [htake, hdrop]
    rfl
  rw [hfilter]
  unfold selectFile
  rw [List.findSome?_cons, htry]

/-- C1 counterexample: the standard multipart body for boundary `X` whose
single file part carries exactly one byte `65` decodes to content
`[65, 13, 10]` — the CRLF before the closing delimiter is included — so
encode-then-decode does not yield the original byte sequence. -/
theorem C1_round_trip_cex :
    parseMultipartFile (some ctX) (some (encodeScenarioA [65])) =
        .ok (some { filename := strL "a.png", mimeType := strL "image/png",
                    content := [65, 13, 10] }) ∧
      [65, 13, 10] ≠ [65] :=
  ⟨rfl, by decide⟩

/-- C1 witness: the amended round-trip at a concrete 37-byte content, as in
the spec's scenario A — the decoded content is those 37 bytes plus CRLF
(39 bytes), not the original 37. -/
theorem C1_round_trip_appends_crlf_witness :
    parseMultipartFile (some ctX) (some (encodeScenarioA (List.range 37))) =
      .ok (some { filename := strL "a.png", mimeType := strL "image/png",
                  content := List.range 37 ++ [13, 10] }) :=
  C1_round_trip_appends_crlf (List.range 37) (by decide)

end MediaService
